import Mathlib

/-! asdf: plugin commands and installed-version tracker

A shallow embedding of `cmd/cmd.go` (the `plugin add`, `plugin list` and
`plugin update` commands) and of the `installs` package exercised by
`internal/installs/installs_test.go`.

The commands talk to collaborators (`config.LoadConfig`, `plugins.List`,
`plugins.Add`, `plugins.Update`, the logger and `os.Exit`).  A collaborator is
a state-passing function over an arbitrary world type `W`; every call and
what it returned, every logger write and the process exit are appended to a
trace, in program order.
-/

set_option autoImplicit false

namespace Asdf

/-! ## Values -/

/-- The part of `config.Config` the code reads. -/
structure Config where
  DataDir : String
deriving DecidableEq, Repr

/-- The fields of `plugins.Plugin` that `cmd.go` reads. -/
structure Plugin where
  Name : String
  URL : String
  Ref : String
deriving DecidableEq, Repr

/-- Error values handed back by the `config` and `plugins` packages: what the
commands observe of them is the text of `Error()` and the `Unwrap` chain
that `errors.As` walks. -/
inductive PkgError where
  | pluginAlreadyExists (msg : String)
  | other (msg : String)
  | wrapping (msg : String) (inner : PkgError)
deriving DecidableEq, Repr

/-- The method `Error()` of a collaborator error. -/
def PkgError.Error : PkgError → String
  | .pluginAlreadyExists msg => msg
  | .other msg => msg
  | .wrapping msg _ => msg

/-- A Go `error` as seen by the callers of the commands: either the value
freshly allocated by `cli.Exit` inside a command, or a value that came from a
collaborator. -/
inductive GoError where
  | exitError (message : String) (exitCode : Int)
  | pkg (e : PkgError)
deriving DecidableEq, Repr

namespace cli

/-- The call `cli.Exit(message, exitCode)`. -/
def Exit (message : String) (exitCode : Int) : GoError :=
  GoError.exitError message exitCode

/-- The `*cli.Context` of a command: the boolean flags given on the command
line. -/
structure Context where
  lookupBool : String → Bool

/-- The call `cCtx.Bool(name)`. -/
def Context.Bool (cCtx : Context) (name : String) : Bool :=
  cCtx.lookupBool name

end cli

namespace errors

/-- The call `errors.As(err, &existsErr)` with `existsErr` of type
`plugins.PluginAlreadyExists`: true when some error of the `Unwrap` chain of
`err` has that type. -/
def As : PkgError → Bool
  | .pluginAlreadyExists _ => true
  | .other _ => false
  | .wrapping _ inner => As inner

end errors

/-! ## Collaborators, trace and process state -/

/-- The collaborators of the commands, each a function of the world. The
return shapes are those of Go: a value paired with an optional error. -/
structure Env (W : Type) where
  configLoadConfig : W → (Config × Option PkgError) × W
  pluginsList : Config → Bool → Bool → W → (List Plugin × Option PkgError) × W
  pluginsAdd : Config → String → String → W → Option PkgError × W
  pluginsUpdate : Config → String → String → W → (String × Option PkgError) × W

/-- One observable step of a command: a collaborator call with its arguments
and what it returned, a write of the logger, or `os.Exit`. -/
inductive Event where
  | loadConfig (conf : Config) (err : Option PkgError)
  | list (conf : Config) (urls refs : Bool) (plugins : List Plugin) (err : Option PkgError)
  | add (conf : Config) (pluginName pluginRepo : String) (err : Option PkgError)
  | update (conf : Config) (pluginName ref : String) (updatedToRef : String)
      (err : Option PkgError)
  | printed (text : String)
  | osExit (code : Int)
deriving DecidableEq, Repr

/-- The running process: the world and the events so far, oldest first. -/
structure Proc (W : Type) where
  world : W
  trace : List Event

/-- How a command ends: it returns an `error` (possibly nil) to its caller,
or the process is terminated by `os.Exit`. -/
inductive Result where
  | returned (err : Option GoError)
  | exited (code : Int)
deriving DecidableEq, Repr

variable {W : Type}

/-- Appends an event to the trace. -/
def Proc.emit (p : Proc W) (e : Event) : Proc W :=
  { p with trace := p.trace ++ [e] }

/-- What `log.Logger.Output` writes for the formatted string `s`: a newline is
appended when `s` is empty or its last character is not a newline. -/
def loggerOutput (s : String) : String :=
  match s.data.getLast? with
  | some '\n' => s
  | _ => s ++ "\n"

/-- The call `logger.Printf(format, args...)`, given the formatted string. -/
def loggerPrintf (p : Proc W) (formatted : String) : Proc W :=
  p.emit (Event.printed (loggerOutput formatted))

/-- The call `config.LoadConfig()`, recorded in the trace. -/
def callLoadConfig (env : Env W) (p : Proc W) : (Config × Option PkgError) × Proc W :=
  let r := env.configLoadConfig p.world
  (r.1, (Proc.mk r.2 p.trace).emit (Event.loadConfig r.1.1 r.1.2))

/-- The call `plugins.List(conf, urls, refs)`, recorded in the trace. -/
def callList (env : Env W) (conf : Config) (urls refs : Bool) (p : Proc W) :
    (List Plugin × Option PkgError) × Proc W :=
  let r := env.pluginsList conf urls refs p.world
  (r.1, (Proc.mk r.2 p.trace).emit (Event.list conf urls refs r.1.1 r.1.2))

/-- The call `plugins.Add(conf, pluginName, pluginRepo)`, recorded in the trace. -/
def callAdd (env : Env W) (conf : Config) (pluginName pluginRepo : String) (p : Proc W) :
    Option PkgError × Proc W :=
  let r := env.pluginsAdd conf pluginName pluginRepo p.world
  (r.1, (Proc.mk r.2 p.trace).emit (Event.add conf pluginName pluginRepo r.1))

/-- The call `plugins.Update(conf, pluginName, ref)`, recorded in the trace. -/
def callUpdate (env : Env W) (conf : Config) (pluginName ref : String) (p : Proc W) :
    (String × Option PkgError) × Proc W :=
  let r := env.pluginsUpdate conf pluginName ref p.world
  (r.1, (Proc.mk r.2 p.trace).emit (Event.update conf pluginName ref r.1.1 r.1.2))

/-- The call `os.Exit(code)`: the process ends here. -/
def osExit (p : Proc W) (code : Int) : Result × Proc W :=
  (Result.exited code, p.emit (Event.osExit code))

/-! ## The commands of `cmd.go` -/

/-- The function `pluginAddCommand(_, conf, logger, pluginName, pluginRepo)`;
`os.Exit` ends the run, so the `return nil` after it is never reached. -/
def pluginAddCommand (env : Env W) (conf : Config) (pluginName pluginRepo : String)
    (p : Proc W) : Result × Proc W :=
  if pluginName = "" then
    (Result.returned (some (cli.Exit "usage: asdf plugin add <name> [<git-url>]" 1)), p)
  else
    let r := callAdd env conf pluginName pluginRepo p
    match r.1 with
    | some err =>
      let p1 := loggerPrintf r.2 err.Error
      if errors.As err then osExit p1 0 else osExit p1 1
    | none => osExit r.2 0

/-- The body of the loop of `pluginListCommand`: one line for one plugin. -/
def printPlugin (urls refs : Bool) (p : Proc W) (plugin : Plugin) : Proc W :=
  if urls && refs then
    loggerPrintf p (plugin.Name ++ "\t\t" ++ plugin.URL ++ "\t" ++ plugin.Ref ++ "\n")
  else if refs then
    loggerPrintf p (plugin.Name ++ "\t\t" ++ plugin.Ref ++ "\n")
  else if urls then
    loggerPrintf p (plugin.Name ++ "\t\t" ++ plugin.URL ++ "\n")
  else
    loggerPrintf p (plugin.Name ++ "\n")

/-- The function `pluginListCommand(cCtx, logger)`. -/
def pluginListCommand (env : Env W) (cCtx : cli.Context) (p : Proc W) : Result × Proc W :=
  let urls := cCtx.Bool "urls"
  let refs := cCtx.Bool "refs"
  let c := callLoadConfig env p
  match c.1.2 with
  | some err =>
    (Result.returned (some (GoError.pkg err)),
      loggerPrintf c.2 ("error loading config: " ++ err.Error))
  | none =>
    let l := callList env c.1.1 urls refs c.2
    match l.1.2 with
    | some err =>
      (Result.returned (some (GoError.pkg err)),
        loggerPrintf l.2 ("error loading plugin list: " ++ err.Error))
    | none =>
      (Result.returned none, l.1.1.foldl (printPlugin urls refs) l.2)

/-- The function `formatUpdateResult(logger, pluginName, updatedToRef, err)`. -/
def formatUpdateResult (p : Proc W) (pluginName updatedToRef : String)
    (err : Option PkgError) : Proc W :=
  match err with
  | some e =>
    loggerPrintf p ("failed to update " ++ pluginName ++ " due to error: " ++ e.Error ++ "\n")
  | none =>
    loggerPrintf p ("updated " ++ pluginName ++ " to ref " ++ updatedToRef ++ "\n")

/-- The body of the loop of the bulk update: update one plugin, report it. -/
def updateOne (env : Env W) (conf : Config) (p : Proc W) (plugin : Plugin) : Proc W :=
  let u := callUpdate env conf plugin.Name "" p
  formatUpdateResult u.2 plugin.Name u.1.1 u.1.2

/-- The function `pluginUpdateCommand(cCtx, logger, pluginName, ref)`. -/
def pluginUpdateCommand (env : Env W) (cCtx : cli.Context) (pluginName ref : String)
    (p : Proc W) : Result × Proc W :=
  let updateAll := cCtx.Bool "all"
  if !updateAll && pluginName = "" then
    (Result.returned
      (some (cli.Exit "usage: asdf plugin-update \x7b<name> [git-ref] | --all\x7d" 1)), p)
  else
    let c := callLoadConfig env p
    match c.1.2 with
    | some err =>
      (Result.returned (some (GoError.pkg err)),
        loggerPrintf c.2 ("error loading config: " ++ err.Error))
    | none =>
      if updateAll then
        let l := callList env c.1.1 false false c.2
        match l.1.2 with
        | some err =>
          (Result.returned (some (GoError.pkg err)),
            loggerPrintf l.2 ("failed to get plugin list: " ++ err.Error))
        | none =>
          (Result.returned none, l.1.1.foldl (updateOne env c.1.1) l.2)
      else
        let u := callUpdate env c.1.1 pluginName ref c.2
        (Result.returned (u.1.2.map GoError.pkg),
          formatUpdateResult u.2 pluginName u.1.1 u.1.2)

/-! ## Reading a trace -/

/-- The arguments of the `plugins.Update` calls of a trace, in order. -/
def updateCalls : List Event → List (Config × String × String)
  | [] => []
  | Event.update conf pluginName ref _ _ :: rest => (conf, pluginName, ref) :: updateCalls rest
  | _ :: rest => updateCalls rest

/-- The arguments of the `plugins.Add` calls of a trace, in order. -/
def addCalls : List Event → List (Config × String × String)
  | [] => []
  | Event.add conf pluginName pluginRepo _ :: rest =>
    (conf, pluginName, pluginRepo) :: addCalls rest
  | _ :: rest => addCalls rest

/-- The arguments of the `plugins.List` calls of a trace, in order. -/
def listCalls : List Event → List (Config × Bool × Bool)
  | [] => []
  | Event.list conf urls refs _ _ :: rest => (conf, urls, refs) :: listCalls rest
  | _ :: rest => listCalls rest

/-- The texts the logger wrote, in order. -/
def printedTexts : List Event → List String
  | [] => []
  | Event.printed text :: rest => text :: printedTexts rest
  | _ :: rest => printedTexts rest

/-- An error that is a `plugins.PluginAlreadyExists`, bare or wrapped any
number of times, in the words of the specification. -/
inductive AlreadyExistsInChain : PkgError → Prop where
  | bare (msg : String) : AlreadyExistsInChain (PkgError.pluginAlreadyExists msg)
  | wrapped (msg : String) (inner : PkgError) :
    AlreadyExistsInChain inner → AlreadyExistsInChain (PkgError.wrapping msg inner)

/-- The report line for one update outcome, in the words of the
specification: pairs the revision and the error `plugins.Update` returned. -/
def reportLine (pluginName : String) (outcome : String × Option PkgError) : String :=
  match outcome.2 with
  | some err => "failed to update " ++ pluginName ++ " due to error: " ++ err.Error
  | none => "updated " ++ pluginName ++ " to ref " ++ outcome.1

/-- The line of the list command for one plugin, in the words of the
specification. -/
def listLine (urls refs : Bool) (plugin : Plugin) : String :=
  match urls, refs with
  | false, false => plugin.Name
  | true, false => plugin.Name ++ "\t\t" ++ plugin.URL
  | false, true => plugin.Name ++ "\t\t" ++ plugin.Ref
  | true, true => plugin.Name ++ "\t\t" ++ plugin.URL ++ "\t" ++ plugin.Ref

/-- What the collaborator returns when `plugins.Update(conf, plugin.Name, "")`
is called for the plugins of a list one after the other, starting in world
`w`. -/
def updateOutcomes (env : Env W) (conf : Config) :
    List Plugin → W → List (String × Option PkgError)
  | [], _ => []
  | plugin :: rest, w =>
    (env.pluginsUpdate conf plugin.Name "" w).1 ::
      updateOutcomes env conf rest (env.pluginsUpdate conf plugin.Name "" w).2

/-- The two events of one iteration of the bulk update. -/
def updateStep (conf : Config) (plugin : Plugin) (outcome : String × Option PkgError) :
    List Event :=
  [Event.update conf plugin.Name "" outcome.1 outcome.2,
    Event.printed (reportLine plugin.Name outcome ++ "\n")]

/-! ## The filesystem under the data directory -/

/-- What a path names: a regular file or a directory. -/
inductive Kind where
  | file
  | dir
deriving DecidableEq, Repr

/-- A filesystem state without symbolic links: the entries below the root,
each the list of the names leading to it with its kind. The first entry of a
location is the one that counts; the root itself (the empty list) is always a
directory. -/
abbrev FS := List (List String × Kind)

/-- Splits a path at every `/`. -/
def splitSlash : List Char → List (List Char)
  | [] => [[]]
  | c :: cs =>
    if c = '/' then [] :: splitSlash cs
    else
      match splitSlash cs with
      | [] => [[c]]
      | seg :: segs => (c :: seg) :: segs

/-- The components of a path string, the empty ones of `//` and of a leading
or trailing `/` included. -/
def components (path : String) : List String :=
  (splitSlash path.data).map String.mk

/-- The kind of what is at a location, if anything. -/
def kindAt (fs : FS) (p : List String) : Option Kind :=
  if p = [] then some Kind.dir
  else (fs.find? (fun e => decide (e.1 = p))).map Prod.snd

/-- Path resolution as the system does it, one component after the other
from the directory `cur`: an empty component and `.` stay, `..` goes to the
parent, a name must exist, and it must be a directory when anything follows
it. The result is the location reached and its kind; `none` is the error
(no such file or directory, not a directory). -/
def walk (fs : FS) : List String → List String → Option (List String × Kind)
  | cur, [] => some (cur, Kind.dir)
  | cur, c :: rest =>
    if c = "" ∨ c = "." then walk fs cur rest
    else if c = ".." then walk fs cur.dropLast rest
    else
      match kindAt fs (cur ++ [c]) with
      | some Kind.dir => walk fs (cur ++ [c]) rest
      | some Kind.file => if rest = [] then some (cur ++ [c], Kind.file) else none
      | none => none

/-- The call `os.Stat(path)`, paths taken from the root: the kind of what the
path names, `none` for an error. -/
def osStat (fs : FS) (path : String) : Option Kind :=
  if path = "" then none else (walk fs [] (components path)).map Prod.snd

/-- The system call behind `os.Mkdir`: every component before the last name
is resolved and must be a directory; the last name must not exist yet (nor be
`.` or `..`) and becomes a directory. Trailing slashes are allowed. -/
def mkdirWalk (fs : FS) : List String → List String → Option FS
  | _, [] => none
  | cur, c :: rest =>
    if rest.all (fun r => decide (r = "")) then
      if c = "" ∨ c = "." ∨ c = ".." then none
      else
        match kindAt fs (cur ++ [c]) with
        | some _ => none
        | none => some (fs ++ [(cur ++ [c], Kind.dir)])
    else if c = "" ∨ c = "." then mkdirWalk fs cur rest
    else if c = ".." then mkdirWalk fs cur.dropLast rest
    else
      match kindAt fs (cur ++ [c]) with
      | some Kind.dir => mkdirWalk fs (cur ++ [c]) rest
      | _ => none

/-- The call `os.Mkdir(path, perm)`; `none` is a non-nil error. -/
def osMkdir (fs : FS) (path : String) : Option FS :=
  mkdirWalk fs [] (components path)

/-- The parents `os.MkdirAll` recurses into, shortest first: the prefixes of
the path that end with a `/` right before the start of a name. -/
def ancestors : List Char → List (List Char)
  | [] => []
  | c :: rest =>
    (match rest with
      | [] => []
      | d :: _ => if c = '/' ∧ d ≠ '/' then [[c]] else []) ++
      (ancestors rest).map (fun a => c :: a)

/-- The recursion of `os.MkdirAll` over a path followed by its parents,
longest first: a path that exists ends the recursion (with an error when it
is not a directory); otherwise the parents are made first, then `Mkdir` is
called, and when that fails the path is accepted if it is a directory after
all. -/
def mkdirChain (fs : FS) : List String → Option FS
  | [] => some fs
  | path :: parents =>
    match osStat fs path with
    | some Kind.dir => some fs
    | some Kind.file => none
    | none =>
      match mkdirChain fs parents with
      | none => none
      | some fs1 =>
        match osMkdir fs1 path with
        | some fs2 => some fs2
        | none => if osStat fs1 path = some Kind.dir then some fs1 else none

/-- The call `os.MkdirAll(path, os.ModePerm)`; `none` is a non-nil error. -/
def osMkdirAll (fs : FS) (path : String) : Option FS :=
  mkdirChain fs (path :: ((ancestors path.data).map String.mk).reverse)

/-- The entries directly inside the directory at `base`. -/
def entriesUnder (fs : FS) (base : List String) : FS :=
  fs.filter (fun e => decide (e.1 ≠ [] ∧ e.1.dropLast = base))

/-- The order of file names in a directory listing: by character code, a
proper prefix first. -/
def charsLE : List Char → List Char → Bool
  | [], _ => true
  | _ :: _, [] => false
  | a :: as, b :: bs =>
    if a.toNat < b.toNat then true
    else if b.toNat < a.toNat then false
    else charsLE as bs

/-- The names directly inside the directory at `base`, each once, sorted. -/
def entryNames (fs : FS) (base : List String) : List String :=
  (((entriesUnder fs base).filterMap (fun e => e.1.getLast?)).dedup).insertionSort
    (fun a b => charsLE a.data b.data = true)

/-- The call `os.ReadDir(path)`: the entries of the directory, sorted by
name, each with its kind; `none` is a non-nil error. -/
def osReadDir (fs : FS) (path : String) : Option (List (String × Kind)) :=
  if path = "" then none
  else
    match walk fs [] (components path) with
    | some (base, Kind.dir) =>
      some ((entryNames fs base).filterMap (fun name =>
        (kindAt fs (base ++ [name])).map (fun k => (name, k))))
    | _ => none

/-! ## The `installs` package -/

/-- Modelled from the spec: `InstallPath` of package `installs`, of which the
sources hold only the test. The spec gives the path as
`DataDir/installs/<Plugin.Name>/<version>`, literally. -/
def InstallPath (conf : Config) (plugin : Plugin) (version : String) : String :=
  conf.DataDir ++ "/installs/" ++ plugin.Name ++ "/" ++ version

/-- Modelled from the spec: `IsInstalled` of package `installs`, of which the
sources hold only the test: true iff the path produced by the install path
resolver exists as a directory; the contents are not looked at. -/
def IsInstalled (fs : FS) (conf : Config) (plugin : Plugin) (version : String) : Bool :=
  decide (osStat fs (InstallPath conf plugin version) = some Kind.dir)

/-- Modelled from the spec: `Installed` of package `installs`, of which the
sources hold only the test: the names of the immediate subdirectories of
`DataDir/installs/<plugin.Name>`, in the order of the directory listing; an
empty sequence, not an error, when the plugin has no installs directory. The
spec names no case in which `Installed` fails, so none is modelled. -/
def Installed (fs : FS) (conf : Config) (plugin : Plugin) : List String × Option PkgError :=
  match osReadDir fs (conf.DataDir ++ "/installs/" ++ plugin.Name) with
  | some entries =>
    ((entries.filter (fun e => decide (e.2 = Kind.dir))).map Prod.fst, none)
  | none => ([], none)

/-- The helper `mockInstall(t, conf, plugin, version)` of the test: creates the
directory at the install path. -/
def mockInstall (fs : FS) (conf : Config) (plugin : Plugin) (version : String) : Option FS :=
  osMkdirAll fs (InstallPath conf plugin version)

/-- A version string that is one path segment: not empty, not `.` or `..`,
and without `/`. -/
def plainSegment (version : String) : Prop :=
  version ≠ "" ∧ version ≠ "." ∧ version ≠ ".." ∧ '/' ∉ version.data

instance (version : String) : Decidable (plainSegment version) := by
  unfold plainSegment; infer_instance

/-- The names among the components of a path: what is left without the empty
components and `.`. -/
def namesOf (comps : List String) : List String :=
  comps.filter (fun c => decide (c ≠ "" ∧ c ≠ "."))

/-! ## A sample world -/

/-- A command line on which exactly the flags `names` are set. -/
def flagsSet (names : List String) : cli.Context :=
  ⟨fun name => names.contains name⟩

/-- The configuration of the sample world. -/
def sampleConf : Config := ⟨"/x"⟩

/-- The plugin of the `installs` tests (`testPluginName`). -/
def testPlugin : Plugin := ⟨"lua", "", ""⟩

/-- A configuration whose data directory is written with `..` components
that run through the installs directory of `lua`. -/
def dotDotConf : Config := ⟨"/x/installs/lua/junk/../../.."⟩

/-- Three plugins, sorted by name. -/
def samplePlugins : List Plugin :=
  [⟨"lua", "https://example.com/lua.git", "1a2b"⟩,
    ⟨"nodejs", "https://example.com/nodejs.git", "3c4d"⟩,
    ⟨"ruby", "https://example.com/ruby.git", "5e6f"⟩]

/-- A world that counts the collaborator calls: `lua` is already added (the
error comes back wrapped), adding `broken` fails, and updating `nodejs`
fails. -/
def sampleEnv : Env Nat where
  configLoadConfig := fun w => ((sampleConf, none), w + 1)
  pluginsList := fun _ _ _ w => ((samplePlugins, none), w + 1)
  pluginsAdd := fun _ pluginName _ w =>
    (if pluginName = "lua" then
        some (PkgError.wrapping "add failed: plugin named lua already added"
          (PkgError.pluginAlreadyExists "plugin named lua already added"))
      else if pluginName = "broken" then some (PkgError.other "unable to clone plugin")
      else none, w + 1)
  pluginsUpdate := fun _ pluginName _ w =>
    (if pluginName = "nodejs" then ("", some (PkgError.other "fetch failed"))
      else ("f00d", none), w + 1)

/-! ## Lemmas -/

theorem loggerOutput_newline (s : String) : loggerOutput (s ++ "\n") = s ++ "\n" := by
  have h : (s ++ "\n").data.getLast? = some '\n' := by
    rw [String.data_append]
    exact List.getLast?_concat s.data
  simp [loggerOutput, h]

theorem loggerOutput_eq (s : String) :
    loggerOutput s = if s.data.getLast? = some '\n' then s else s ++ "\n" := by
  unfold loggerOutput
  split <;> simp_all

theorem errorsAs_iff (err : PkgError) : errors.As err = true ↔ AlreadyExistsInChain err := by
  induction err with
  | pluginAlreadyExists msg => simp [errors.As, AlreadyExistsInChain.bare]
  | other msg =>
    simp only [errors.As, Bool.false_eq_true, false_iff]
    intro h
    cases h
  | wrapping msg inner ih =>
    simp only [errors.As]
    rw [ih]
    constructor
    · exact fun h => AlreadyExistsInChain.wrapped msg inner h
    · intro h
      cases h with
      | wrapped _ _ h1 => exact h1

theorem updateCalls_append (xs ys : List Event) :
    updateCalls (xs ++ ys) = updateCalls xs ++ updateCalls ys := by
  induction xs with
  | nil => rfl
  | cons x xs ih => cases x <;> simp [updateCalls, ih]

theorem printedTexts_append (xs ys : List Event) :
    printedTexts (xs ++ ys) = printedTexts xs ++ printedTexts ys := by
  induction xs with
  | nil => rfl
  | cons x xs ih => cases x <;> simp [printedTexts, ih]

theorem updateOne_trace (env : Env W) (conf : Config) (p : Proc W) (plugin : Plugin) :
    (updateOne env conf p plugin).trace =
      p.trace ++ updateStep conf plugin (env.pluginsUpdate conf plugin.Name "" p.world).1 := by
  unfold updateOne formatUpdateResult callUpdate updateStep reportLine
  cases h : (env.pluginsUpdate conf plugin.Name "" p.world).1.2 <;>
    simp [h, loggerPrintf, Proc.emit, loggerOutput_newline]

theorem updateOutcomes_length (env : Env W) (conf : Config) (ps : List Plugin) (w : W) :
    (updateOutcomes env conf ps w).length = ps.length := by
  induction ps generalizing w with
  | nil => rfl
  | cons q qs ih => simp [updateOutcomes, ih]

theorem updateOne_world (env : Env W) (conf : Config) (p : Proc W) (plugin : Plugin) :
    (updateOne env conf p plugin).world = (env.pluginsUpdate conf plugin.Name "" p.world).2 := by
  unfold updateOne formatUpdateResult callUpdate
  cases h : (env.pluginsUpdate conf plugin.Name "" p.world).1.2 <;>
    simp [h, loggerPrintf, Proc.emit]

theorem updateLoop_trace (env : Env W) (conf : Config) (ps : List Plugin) (p : Proc W) :
    (ps.foldl (updateOne env conf) p).trace =
      p.trace ++
        (List.zipWith (updateStep conf) ps (updateOutcomes env conf ps p.world)).flatten := by
  induction ps generalizing p with
  | nil => simp [updateOutcomes]
  | cons q qs ih =>
    rw [List.foldl_cons, ih, updateOne_trace, updateOne_world]
    simp [updateOutcomes]

theorem updateCalls_steps (conf : Config) (ps : List Plugin)
    (outs : List (String × Option PkgError)) (h : outs.length = ps.length) :
    updateCalls (List.zipWith (updateStep conf) ps outs).flatten =
      ps.map (fun plugin => (conf, plugin.Name, "")) := by
  induction ps generalizing outs with
  | nil => simp [updateCalls]
  | cons q qs ih =>
    cases outs with
    | nil => simp at h
    | cons o os =>
      have h2 : os.length = qs.length := by simpa using h
      simp [updateStep, updateCalls, ih os h2]

theorem printedTexts_steps (conf : Config) (ps : List Plugin)
    (outs : List (String × Option PkgError)) (h : outs.length = ps.length) :
    printedTexts (List.zipWith (updateStep conf) ps outs).flatten =
      List.zipWith (fun plugin outcome => reportLine plugin.Name outcome ++ "\n") ps outs := by
  induction ps generalizing outs with
  | nil => simp [printedTexts]
  | cons q qs ih =>
    cases outs with
    | nil => simp at h
    | cons o os =>
      have h2 : os.length = qs.length := by simpa using h
      simp [updateStep, printedTexts, ih os h2]

theorem formatUpdateResult_trace (p : Proc W) (pluginName updatedToRef : String)
    (err : Option PkgError) :
    (formatUpdateResult p pluginName updatedToRef err).trace =
      p.trace ++ [Event.printed (reportLine pluginName (updatedToRef, err) ++ "\n")] := by
  cases err <;>
    simp [formatUpdateResult, reportLine, loggerPrintf, Proc.emit, loggerOutput_newline]

/-- Past the usage guard, the update command first loads the configuration. -/
theorem pluginUpdateCommand_starts (env : Env W) (cCtx : cli.Context)
    (pluginName ref : String) (p : Proc W)
    (hguard : (!cCtx.Bool "all" && decide (pluginName = "")) = false) :
    ∃ rest, (pluginUpdateCommand env cCtx pluginName ref p).2.trace =
      (callLoadConfig env p).2.trace ++ rest := by
  unfold pluginUpdateCommand
  simp only [hguard, Bool.false_eq_true, if_false]
  cases hc : (callLoadConfig env p).1.2 with
  | some err => exact ⟨_, by simp only [loggerPrintf, Proc.emit]; rfl⟩
  | none =>
    cases hb : cCtx.Bool "all" with
    | true =>
      cases hl : (callList env (callLoadConfig env p).1.1 false false
          (callLoadConfig env p).2).1.2 with
      | some err =>
        exact ⟨[Event.list (callLoadConfig env p).1.1 false false
            (callList env (callLoadConfig env p).1.1 false false (callLoadConfig env p).2).1.1
            (some err),
          Event.printed (loggerOutput ("failed to get plugin list: " ++ err.Error))], by
          have hl2 := hl
          simp only [callList] at hl2
          simp [hl, hl2, loggerPrintf, Proc.emit, callList]⟩
      | none =>
        have htr := updateLoop_trace env (callLoadConfig env p).1.1
          (callList env (callLoadConfig env p).1.1 false false (callLoadConfig env p).2).1.1
          (callList env (callLoadConfig env p).1.1 false false (callLoadConfig env p).2).2
        refine ⟨Event.list (callLoadConfig env p).1.1 false false
            (callList env (callLoadConfig env p).1.1 false false (callLoadConfig env p).2).1.1
            none :: (List.zipWith (updateStep (callLoadConfig env p).1.1)
              (callList env (callLoadConfig env p).1.1 false false
                (callLoadConfig env p).2).1.1
              (updateOutcomes env (callLoadConfig env p).1.1
                (callList env (callLoadConfig env p).1.1 false false
                  (callLoadConfig env p).2).1.1
                (callList env (callLoadConfig env p).1.1 false false
                  (callLoadConfig env p).2).2.world)).flatten, ?_⟩
        have hl2 := hl
        simp only [callList] at hl2
        simp only [hl, if_true]
        rw [htr]
        simp [callList, Proc.emit, hl2]
    | false =>
      refine ⟨[Event.update (callLoadConfig env p).1.1 pluginName ref
          (callUpdate env (callLoadConfig env p).1.1 pluginName ref (callLoadConfig env p).2).1.1
          (callUpdate env (callLoadConfig env p).1.1 pluginName ref (callLoadConfig env p).2).1.2,
        Event.printed (reportLine pluginName
          (callUpdate env (callLoadConfig env p).1.1 pluginName ref
            (callLoadConfig env p).2).1 ++ "\n")], ?_⟩
      simp [formatUpdateResult_trace, callUpdate, Proc.emit]

theorem listCalls_append (xs ys : List Event) :
    listCalls (xs ++ ys) = listCalls xs ++ listCalls ys := by
  induction xs with
  | nil => rfl
  | cons x xs ih => cases x <;> simp [listCalls, ih]

theorem printedTexts_map_printed {α : Type} (f : α → String) (xs : List α) :
    printedTexts (xs.map (fun x => Event.printed (f x))) = xs.map f := by
  induction xs with
  | nil => rfl
  | cons x xs ih => simp [printedTexts, ih]

theorem listCalls_map_printed {α : Type} (f : α → String) (xs : List α) :
    listCalls (xs.map (fun x => Event.printed (f x))) = [] := by
  induction xs with
  | nil => rfl
  | cons x xs ih => simp [listCalls, ih]

theorem printPlugin_trace (urls refs : Bool) (p : Proc W) (plugin : Plugin) :
    (printPlugin urls refs p plugin).trace =
      p.trace ++ [Event.printed (listLine urls refs plugin ++ "\n")] := by
  cases urls <;> cases refs <;>
    simp [printPlugin, listLine, loggerPrintf, Proc.emit, loggerOutput_newline]

theorem printLoop_trace (urls refs : Bool) (ps : List Plugin) (p : Proc W) :
    (ps.foldl (printPlugin urls refs) p).trace =
      p.trace ++ ps.map (fun plugin => Event.printed (listLine urls refs plugin ++ "\n")) := by
  induction ps generalizing p with
  | nil => simp
  | cons q qs ih => rw [List.foldl_cons, ih, printPlugin_trace]; simp

/-- For a non-empty name the add command calls `plugins.Add` once, with its
own arguments. -/
theorem pluginAddCommand_calls_add (env : Env W) (conf : Config)
    (pluginName pluginRepo : String) (w : W) (hname : pluginName ≠ "") :
    addCalls (pluginAddCommand env conf pluginName pluginRepo ⟨w, []⟩).2.trace =
      [(conf, pluginName, pluginRepo)] := by
  cases ha : (env.pluginsAdd conf pluginName pluginRepo w).1 with
  | none =>
    simp [pluginAddCommand, hname, callAdd, ha, osExit, Proc.emit, addCalls]
  | some err =>
    cases he : errors.As err <;>
      simp [pluginAddCommand, hname, callAdd, ha, he, osExit, Proc.emit, addCalls,
        loggerPrintf]

theorem splitSlash_ne_nil (cs : List Char) : splitSlash cs ≠ [] := by
  induction cs with
  | nil => simp [splitSlash]
  | cons c cs ih =>
    unfold splitSlash
    split
    · simp
    · split <;> simp

theorem splitSlash_no_slash (cs : List Char) (h : '/' ∉ cs) : splitSlash cs = [cs] := by
  induction cs with
  | nil => rfl
  | cons c cs ih =>
    have hc : c ≠ '/' := fun e => h (by simp [e])
    have hcs : '/' ∉ cs := fun e => h (by simp [e])
    simp [splitSlash, hc, ih hcs]

theorem splitSlash_append (a b : List Char) :
    splitSlash (a ++ '/' :: b) = splitSlash a ++ splitSlash b := by
  induction a with
  | nil => simp [splitSlash]
  | cons c a ih =>
    by_cases hc : c = '/'
    · simp [splitSlash, hc, ih]
    · have hne := splitSlash_ne_nil a
      cases hs : splitSlash a with
      | nil => exact absurd hs hne
      | cons seg segs => simp [splitSlash, hc, ih, hs]

theorem kindAt_append_of_some (fs extra : FS) (p : List String) (k : Kind)
    (h : kindAt fs p = some k) : kindAt (fs ++ extra) p = some k := by
  unfold kindAt at h ⊢
  by_cases hp : p = []
  · simpa [hp] using h
  · simp only [hp, if_false] at h ⊢
    cases hf : fs.find? (fun e => decide (e.1 = p)) with
    | none => simp [hf] at h
    | some e => simpa [List.find?_append, hf] using h

theorem kindAt_append_single (fs : FS) (q p : List String) (kq k : Kind)
    (h : kindAt (fs ++ [(q, kq)]) p = some k) : kindAt fs p = some k ∨ p = q := by
  unfold kindAt at h ⊢
  by_cases hp : p = []
  · left; simpa [hp] using h
  · simp only [hp, if_false] at h ⊢
    cases hf : fs.find? (fun e => decide (e.1 = p)) with
    | some e => left; simpa [List.find?_append, hf] using h
    | none =>
      by_cases hq : q = p
      · right; exact hq.symm
      · simp [List.find?_append, hf, hq] at h

theorem kindAt_append_new (fs : FS) (p : List String) (k : Kind)
    (h : kindAt fs p = none) : kindAt (fs ++ [(p, k)]) p = some k := by
  unfold kindAt at h ⊢
  by_cases hp : p = []
  · simp [hp] at h
  · simp only [hp, if_false] at h ⊢
    cases hf : fs.find? (fun e => decide (e.1 = p)) with
    | some e => simp [hf] at h
    | none => simp [List.find?_append, hf]

theorem kindAt_mem (fs : FS) (p : List String) (k : Kind) (hp : p ≠ [])
    (h : kindAt fs p = some k) : (p, k) ∈ fs := by
  unfold kindAt at h
  simp only [hp, if_false] at h
  cases hf : fs.find? (fun e => decide (e.1 = p)) with
  | none => simp [hf] at h
  | some e =>
    have h1 := List.mem_of_find?_eq_some hf
    have h2 := List.find?_some hf
    simp [hf] at h
    simp at h2
    have : e = (p, k) := by
      cases e; simp_all
    rw [← this]; exact h1

theorem eq_singleton_of_nodup {α : Type} (l : List α) (a : α) (hn : l.Nodup)
    (hm : ∀ x, x ∈ l ↔ x = a) : l = [a] := by
  cases l with
  | nil => exact absurd ((hm a).2 rfl) (by simp)
  | cons x xs =>
    have hx : x = a := (hm x).1 (by simp)
    cases xs with
    | nil => rw [hx]
    | cons y ys =>
      have hy : y = a := (hm y).1 (by simp)
      simp [hx, hy] at hn

theorem kindAt_none_of_entriesUnder (fs : FS) (base : List String) (name : String)
    (h : entriesUnder fs base = []) : kindAt fs (base ++ [name]) = none := by
  cases hk : kindAt fs (base ++ [name]) with
  | none => rfl
  | some k =>
    have hm := kindAt_mem fs _ k (by simp) hk
    have : (base ++ [name], k) ∈ entriesUnder fs base := by
      unfold entriesUnder
      rw [List.mem_filter]
      exact ⟨hm, by simp⟩
    rw [h] at this
    simp at this

theorem components_append_plain (path version : String) (hv : plainSegment version) :
    components (path ++ "/" ++ version) = components path ++ [version] := by
  obtain ⟨-, -, -, h4⟩ := hv
  have hd : (path ++ "/" ++ version).data = path.data ++ '/' :: version.data := by
    simp [String.data_append]
  unfold components
  rw [hd, splitSlash_append, splitSlash_no_slash _ h4]
  simp

theorem walk_mono (fs extra : FS) (comps cur : List String) (r : List String × Kind)
    (h : walk fs cur comps = some r) : walk (fs ++ extra) cur comps = some r := by
  induction comps generalizing cur with
  | nil => simpa [walk] using h
  | cons c rest ih =>
    unfold walk at h ⊢
    by_cases h1 : c = "" ∨ c = "."
    · simp only [h1, if_true] at h ⊢
      exact ih cur h
    · simp only [h1, if_false] at h ⊢
      by_cases h2 : c = ".."
      · simp only [h2, if_true] at h ⊢
        exact ih _ h
      · simp only [h2, if_false] at h ⊢
        cases hk : kindAt fs (cur ++ [c]) with
        | none => simp [hk] at h
        | some k =>
          rw [kindAt_append_of_some fs extra _ k hk]
          rw [hk] at h
          cases k with
          | dir => exact ih _ h
          | file => exact h

theorem walk_all_empty (fs : FS) (cur rest : List String)
    (h : rest.all (fun r => decide (r = "")) = true) : walk fs cur rest = some (cur, Kind.dir) := by
  induction rest with
  | nil => rfl
  | cons c rest ih =>
    simp only [List.all_cons, Bool.and_eq_true, decide_eq_true_eq] at h
    unfold walk
    simp [h.1, ih h.2]

theorem walk_snoc (fs : FS) (a cur : List String) (v : String) (r : List String) (k : Kind)
    (hv : v ≠ "" ∧ v ≠ "." ∧ v ≠ "..") (h : walk fs cur (a ++ [v]) = some (r, k)) :
    ∃ b, walk fs cur a = some (b, Kind.dir) ∧ kindAt fs (b ++ [v]) = some k ∧ r = b ++ [v] := by
  induction a generalizing cur with
  | nil =>
    refine ⟨cur, rfl, ?_⟩
    simp only [List.nil_append] at h
    unfold walk at h
    simp only [hv.1, hv.2.1, hv.2.2, or_self, if_false] at h
    cases hk : kindAt fs (cur ++ [v]) with
    | none => simp [hk] at h
    | some kk =>
      rw [hk] at h
      cases kk with
      | dir =>
        simp [walk] at h
        exact ⟨by rw [h.2], h.1.symm⟩
      | file =>
        simp at h
        exact ⟨by rw [h.2], h.1.symm⟩
  | cons c rest ih =>
    rw [List.cons_append] at h
    unfold walk at h ⊢
    by_cases h1 : c = "" ∨ c = "."
    · simp only [h1, if_true] at h ⊢
      exact ih cur h
    · simp only [h1, if_false] at h ⊢
      by_cases h2 : c = ".."
      · simp only [h2, if_true] at h ⊢
        exact ih _ h
      · simp only [h2, if_false] at h ⊢
        cases hk : kindAt fs (cur ++ [c]) with
        | none => simp [hk] at h
        | some kk =>
          rw [hk] at h
          cases kk with
          | dir => exact ih _ h
          | file => simp at h

theorem walk_names (fs : FS) (comps cur : List String) (r : List String) (k : Kind)
    (hdd : ".." ∉ comps) (h : walk fs cur comps = some (r, k)) :
    r = cur ++ namesOf comps := by
  induction comps generalizing cur with
  | nil =>
    simp [walk] at h
    simp [namesOf, h.1]
  | cons c rest ih =>
    have hc : c ≠ ".." := fun e => hdd (by simp [e])
    have hrest : ".." ∉ rest := fun e => hdd (by simp [e])
    unfold walk at h
    by_cases h1 : c = "" ∨ c = "."
    · simp only [h1, if_true] at h
      have := ih cur hrest h
      rcases h1 with h1 | h1 <;> simp [namesOf, h1, this]
    · simp only [h1, if_false, hc] at h
      have hn : namesOf (c :: rest) = c :: namesOf rest := by
        simp only [not_or] at h1
        simp [namesOf, h1.1, h1.2]
      cases hk : kindAt fs (cur ++ [c]) with
      | none => simp [hk] at h
      | some kk =>
        rw [hk] at h
        cases kk with
        | dir =>
          have := ih _ hrest h
          simp [hn, this]
        | file =>
          by_cases hr : rest = []
          · simp [hr] at h
            rw [hn, hr, ← h.1]
            simp [namesOf]
          · simp [hr] at h
theorem mkdirWalk_spec (fs : FS) (comps cur : List String) (fs1 : FS)
    (h : mkdirWalk fs cur comps = some fs1) :
    ∃ q, kindAt fs q = none ∧ fs1 = fs ++ [(q, Kind.dir)] ∧
      walk fs1 cur comps = some (q, Kind.dir) := by
  induction comps generalizing cur with
  | nil => simp [mkdirWalk] at h
  | cons c rest ih =>
    unfold mkdirWalk at h
    by_cases hfin : rest.all (fun r => decide (r = "")) = true
    · simp only [hfin, if_true] at h
      by_cases hc : c = "" ∨ c = "." ∨ c = ".."
      · simp [hc] at h
      · simp only [hc, if_false] at h
        cases hk : kindAt fs (cur ++ [c]) with
        | some kk => simp [hk] at h
        | none =>
          simp only [hk, Option.some.injEq] at h
          refine ⟨cur ++ [c], hk, h.symm, ?_⟩
          simp only [not_or] at hc
          unfold walk
          simp only [hc.1, hc.2.1, hc.2.2, or_self, if_false]
          rw [← h, kindAt_append_new fs _ Kind.dir hk]
          exact walk_all_empty _ _ _ hfin
    · simp only [hfin, Bool.false_eq_true, if_false] at h
      unfold walk
      by_cases h1 : c = "" ∨ c = "."
      · simp only [h1, if_true] at h ⊢
        exact ih cur h
      · simp only [h1, if_false] at h ⊢
        by_cases h2 : c = ".."
        · simp only [h2, if_true] at h ⊢
          exact ih _ h
        · simp only [h2, if_false] at h ⊢
          cases hk : kindAt fs (cur ++ [c]) with
          | none => simp [hk] at h
          | some kk =>
            cases kk with
            | file => simp [hk] at h
            | dir =>
              simp only [hk] at h
              obtain ⟨q, hq, hfs, hw⟩ := ih _ h
              refine ⟨q, hq, hfs, ?_⟩
              rw [hfs, kindAt_append_of_some fs _ _ _ hk, ← hfs]
              exact hw

theorem mkdirWalk_names (fs : FS) (comps cur : List String) (fs1 : FS)
    (hdd : ".." ∉ comps) (h : mkdirWalk fs cur comps = some fs1) :
    fs1 = fs ++ [(cur ++ namesOf comps, Kind.dir)] := by
  obtain ⟨q, -, hfs, hw⟩ := mkdirWalk_spec fs comps cur fs1 h
  rw [hfs, walk_names _ _ _ _ _ hdd hw]

theorem osMkdir_stat (fs fs1 : FS) (path : String) (h : osMkdir fs path = some fs1) :
    osStat fs1 path = some Kind.dir := by
  unfold osMkdir at h
  obtain ⟨q, -, -, hw⟩ := mkdirWalk_spec fs _ _ fs1 h
  have hne : path ≠ "" := by
    intro e
    rw [e] at h
    simp [components, splitSlash, mkdirWalk] at h
  simp [osStat, hne, hw]

theorem osStat_mono (fs extra : FS) (path : String) (k : Kind)
    (h : osStat fs path = some k) : osStat (fs ++ extra) path = some k := by
  unfold osStat at h ⊢
  by_cases hne : path = ""
  · simp [hne] at h
  · simp only [hne, if_false] at h ⊢
    cases hw : walk fs [] (components path) with
    | none => simp [hw] at h
    | some r =>
      rw [walk_mono fs extra _ _ r hw]
      rw [hw] at h
      exact h

theorem mkdirChain_stat (fs fs1 : FS) (path : String) (parents : List String)
    (h : mkdirChain fs (path :: parents) = some fs1) : osStat fs1 path = some Kind.dir := by
  unfold mkdirChain at h
  cases hs : osStat fs path with
  | some k =>
    cases k with
    | dir =>
      simp [hs] at h
      rw [← h]; exact hs
    | file => simp [hs] at h
  | none =>
    simp only [hs] at h
    cases hp : mkdirChain fs parents with
    | none => simp [hp] at h
    | some fs2 =>
      simp only [hp] at h
      cases hm : osMkdir fs2 path with
      | some fs3 =>
        simp [hm] at h
        rw [← h]; exact osMkdir_stat fs2 fs3 path hm
      | none =>
        simp only [hm] at h
        by_cases hd : osStat fs2 path = some Kind.dir
        · simp [hd] at h
          rw [← h]; exact hd
        · simp [hd] at h

theorem osMkdirAll_stat (fs fs1 : FS) (path : String) (h : osMkdirAll fs path = some fs1) :
    osStat fs1 path = some Kind.dir :=
  mkdirChain_stat fs fs1 path _ h

theorem mem_ancestors (s q : List Char) (h : q ∈ ancestors s) :
    ∃ a b, s = a ++ '/' :: b ∧ q = a ++ ['/'] := by
  induction s generalizing q with
  | nil => simp [ancestors] at h
  | cons c rest ih =>
    unfold ancestors at h
    rw [List.mem_append] at h
    rcases h with h | h
    · cases rest with
      | nil => simp at h
      | cons d more =>
        by_cases hc : c = '/' ∧ d ≠ '/'
        · simp [hc] at h
          exact ⟨[], d :: more, by simp [hc.1], by simp [h]⟩
        · simp [hc] at h
    · rw [List.mem_map] at h
      obtain ⟨q1, hq1, hq⟩ := h
      obtain ⟨a, b, hs, hqa⟩ := ih q1 hq1
      exact ⟨c :: a, b, by simp [hs], by simp [← hq, hqa]⟩

theorem namesOf_append (xs ys : List String) :
    namesOf (xs ++ ys) = namesOf xs ++ namesOf ys := by
  simp [namesOf]

theorem kindAt_append_cases (fs added : FS) (p : List String) (k : Kind)
    (h : kindAt (fs ++ added) p = some k) :
    kindAt fs p = some k ∨ ∃ e ∈ added, e.1 = p := by
  by_cases hp : p = []
  · left; simpa [kindAt, hp] using h
  · cases hf : kindAt fs p with
    | some kk =>
      left
      rw [kindAt_append_of_some fs added p kk hf] at h
      exact h
    | none =>
      right
      have hm := kindAt_mem (fs ++ added) p k hp h
      rw [List.mem_append] at hm
      rcases hm with hm | hm
      · have : kindAt fs p ≠ none := by
          unfold kindAt
          simp only [hp, if_false]
          cases hfind : fs.find? (fun e => decide (e.1 = p)) with
          | none =>
            rw [List.find?_eq_none] at hfind
            exact absurd (by simp) (hfind _ hm)
          | some e => simp
        exact absurd hf this
      · exact ⟨(p, k), hm, rfl⟩
theorem components_ancestor (a b : List Char) :
    components (String.mk (a ++ ['/'])) = (splitSlash a).map String.mk ++ [""] ∧
      components (String.mk (a ++ '/' :: b)) =
        (splitSlash a).map String.mk ++ (splitSlash b).map String.mk := by
  constructor
  · unfold components
    rw [show (String.mk (a ++ ['/'])).data = a ++ '/' :: [] from rfl, splitSlash_append]
    simp [splitSlash]
  · unfold components
    rw [show (String.mk (a ++ '/' :: b)).data = a ++ '/' :: b from rfl, splitSlash_append]
    simp

theorem chain_names (path : String) (hdd : ".." ∉ components path) (q : String)
    (hq : q ∈ path :: ((ancestors path.data).map String.mk).reverse) :
    ".." ∉ components q ∧ namesOf (components q) <+: namesOf (components path) := by
  rw [List.mem_cons] at hq
  rcases hq with hq | hq
  · rw [hq]
    exact ⟨hdd, List.prefix_refl _⟩
  · rw [List.mem_reverse, List.mem_map] at hq
    obtain ⟨cs, hcs, hq⟩ := hq
    obtain ⟨a, b, hs, hcsa⟩ := mem_ancestors _ _ hcs
    have hpath : path = String.mk (a ++ '/' :: b) := by
      rw [← hs]
    obtain ⟨h1, h2⟩ := components_ancestor a b
    rw [← hpath] at h2
    rw [← hq, hcsa, h1]
    rw [h2] at hdd
    constructor
    · intro hmem
      rw [List.mem_append] at hmem
      rcases hmem with hmem | hmem
      · exact hdd (List.mem_append_left _ hmem)
      · simp at hmem
    · rw [h2, namesOf_append, namesOf_append]
      have : namesOf [""] = [] := by simp [namesOf]
      rw [this, List.append_nil]
      exact List.prefix_append _ _

theorem mkdirChain_added (T : List String) (chain : List String) (fs fs1 : FS)
    (hchain : ∀ q ∈ chain, ".." ∉ components q ∧ namesOf (components q) <+: T)
    (h : mkdirChain fs chain = some fs1) :
    ∃ added : FS, fs1 = fs ++ added ∧ ∀ e ∈ added, e.1 <+: T := by
  induction chain generalizing fs1 with
  | nil =>
    simp [mkdirChain] at h
    exact ⟨[], by simp [h], by simp⟩
  | cons path parents ih =>
    have hpath := hchain path (by simp)
    have hparents : ∀ q ∈ parents, ".." ∉ components q ∧ namesOf (components q) <+: T :=
      fun q hq => hchain q (by simp [hq])
    unfold mkdirChain at h
    cases hs : osStat fs path with
    | some k =>
      cases k with
      | dir =>
        simp [hs] at h
        exact ⟨[], by simp [h], by simp⟩
      | file => simp [hs] at h
    | none =>
      simp only [hs] at h
      cases hp : mkdirChain fs parents with
      | none => simp [hp] at h
      | some fs2 =>
        simp only [hp] at h
        obtain ⟨added, hfs2, hadded⟩ := ih fs2 hparents hp
        cases hm : osMkdir fs2 path with
        | some fs3 =>
          simp [hm] at h
          have h3 := mkdirWalk_names fs2 _ [] fs3 hpath.1 hm
          refine ⟨added ++ [([] ++ namesOf (components path), Kind.dir)], ?_, ?_⟩
          · rw [← h, h3, hfs2, List.append_assoc]
          · intro e he
            rw [List.mem_append] at he
            rcases he with he | he
            · exact hadded e he
            · simp at he
              rw [he]
              exact hpath.2
        | none =>
          simp only [hm] at h
          by_cases hd : osStat fs2 path = some Kind.dir
          · simp [hd] at h
            exact ⟨added, by rw [← h, hfs2], hadded⟩
          · simp [hd] at h

theorem mem_entryNames (fs : FS) (base : List String) (name : String) :
    name ∈ entryNames fs base ↔ ∃ k, (base ++ [name], k) ∈ fs := by
  unfold entryNames
  rw [(List.perm_insertionSort _ _).mem_iff, List.mem_dedup, List.mem_filterMap]
  constructor
  · rintro ⟨e, he, hname⟩
    unfold entriesUnder at he
    rw [List.mem_filter] at he
    obtain ⟨hmem, hcond⟩ := he
    simp only [decide_eq_true_eq] at hcond
    have := List.dropLast_append_getLast? name (by simpa using hname)
    rw [hcond.2] at this
    refine ⟨e.2, ?_⟩
    rw [this]
    exact hmem
  · rintro ⟨k, hk⟩
    refine ⟨(base ++ [name], k), ?_, by simp⟩
    unfold entriesUnder
    rw [List.mem_filter]
    exact ⟨hk, by simp⟩

theorem entryNames_nodup (fs : FS) (base : List String) : (entryNames fs base).Nodup := by
  unfold entryNames
  rw [(List.perm_insertionSort _ _).nodup_iff]
  exact List.nodup_dedup _

theorem subdirs_of_entries (fs : FS) (base : List String) (names : List String) :
    ((names.filterMap (fun name =>
        (kindAt fs (base ++ [name])).map (fun k => (name, k)))).filter
          (fun e => decide (e.2 = Kind.dir))).map Prod.fst =
      names.filter (fun name => decide (kindAt fs (base ++ [name]) = some Kind.dir)) := by
  induction names with
  | nil => rfl
  | cons n ns ih =>
    cases hk : kindAt fs (base ++ [n]) with
    | none => simp [List.filterMap_cons, hk, ih]
    | some k =>
      cases k <;> simp [List.filterMap_cons, hk, ih]

theorem Installed_of_dir (fs : FS) (conf : Config) (plugin : Plugin) (base : List String)
    (hw : walk fs [] (components (conf.DataDir ++ "/installs/" ++ plugin.Name)) =
      some (base, Kind.dir)) :
    Installed fs conf plugin =
      ((entryNames fs base).filter
        (fun name => decide (kindAt fs (base ++ [name]) = some Kind.dir)), none) := by
  have hne : conf.DataDir ++ "/installs/" ++ plugin.Name ≠ "" := by
    intro e
    have := congrArg String.length e
    simp only [String.length_append] at this
    have h9 : "/installs/".length = 10 := by decide
    have h0 : "".length = 0 := by decide
    omega
  unfold Installed osReadDir
  simp only [hne, if_false, hw]
  rw [subdirs_of_entries]

theorem mem_subdirs (fs : FS) (base : List String) (name : String) :
    name ∈ (entryNames fs base).filter
        (fun name => decide (kindAt fs (base ++ [name]) = some Kind.dir)) ↔
      kindAt fs (base ++ [name]) = some Kind.dir := by
  rw [List.mem_filter, mem_entryNames]
  simp only [decide_eq_true_eq]
  constructor
  · exact fun h => h.2
  · exact fun h => ⟨⟨Kind.dir, kindAt_mem fs _ _ (by simp) h⟩, h⟩
theorem walk_append (fs : FS) (a rest cur b : List String)
    (h : walk fs cur a = some (b, Kind.dir)) : walk fs cur (a ++ rest) = walk fs b rest := by
  induction a generalizing cur with
  | nil =>
    simp [walk] at h
    simp [h]
  | cons c more ih =>
    rw [List.cons_append]
    unfold walk at h
    conv_lhs => unfold walk
    by_cases h1 : c = "" ∨ c = "."
    · simp only [h1, if_true] at h ⊢
      exact ih cur h
    · simp only [h1, if_false] at h ⊢
      by_cases h2 : c = ".."
      · simp only [h2, if_true] at h ⊢
        exact ih _ h
      · simp only [h2, if_false] at h ⊢
        cases hk : kindAt fs (cur ++ [c]) with
        | none => simp [hk] at h
        | some kk =>
          rw [hk] at h
          cases kk with
          | dir => exact ih _ h
          | file =>
            by_cases hr : more = []
            · simp [hr] at h
            · simp [hr] at h

theorem walk_plain (fs : FS) (base : List String) (v : String)
    (hv : v ≠ "" ∧ v ≠ "." ∧ v ≠ "..") :
    (walk fs base [v]).map Prod.snd = kindAt fs (base ++ [v]) := by
  unfold walk
  simp only [hv.1, hv.2.1, hv.2.2, or_self, if_false]
  cases hk : kindAt fs (base ++ [v]) with
  | none => rfl
  | some k => cases k <;> simp [walk]

theorem InstallPath_ne_empty (conf : Config) (plugin : Plugin) (version : String) :
    InstallPath conf plugin version ≠ "" := by
  intro e
  have := congrArg String.length e
  simp only [InstallPath, String.length_append] at this
  have h9 : "/installs/".length = 10 := by decide
  have h1 : "/".length = 1 := by decide
  have h0 : "".length = 0 := by decide
  omega

theorem installsDir_ne_empty (conf : Config) (plugin : Plugin) :
    conf.DataDir ++ "/installs/" ++ plugin.Name ≠ "" := by
  intro e
  have := congrArg String.length e
  simp only [String.length_append] at this
  have h9 : "/installs/".length = 10 := by decide
  have h0 : "".length = 0 := by decide
  omega

theorem Installed_of_not_dir (fs : FS) (conf : Config) (plugin : Plugin)
    (h : osStat fs (conf.DataDir ++ "/installs/" ++ plugin.Name) ≠ some Kind.dir) :
    Installed fs conf plugin = ([], none) := by
  unfold osStat at h
  simp only [installsDir_ne_empty, if_false] at h
  unfold Installed osReadDir
  simp only [installsDir_ne_empty, if_false]
  cases hw : walk fs [] (components (conf.DataDir ++ "/installs/" ++ plugin.Name)) with
  | none => rfl
  | some r =>
    obtain ⟨base, k⟩ := r
    cases k with
    | file => rfl
    | dir => simp [hw] at h

/-! ## The update command -/

/-- C1: with `--all` set, once the configuration is loaded and `plugins.List`
returned `ps`, the trace after the two loading calls is, for each plugin of
`ps` in list order, one call `plugins.Update(conf, plugin.Name, "")` followed
by one report line built from what that very call returned (the failure line
when it returned an error, the success line with the revision otherwise). So
there are exactly `ps.length` calls and `ps.length` lines whatever the
outcomes are, an error never stops the loop, and the positional name and ref
play no part. -/
theorem pluginUpdateCommand_all_each_plugin (env : Env W) (cCtx : cli.Context)
    (pluginName ref : String) (w w1 w2 : W) (conf : Config) (ps : List Plugin)
    (hall : cCtx.Bool "all" = true)
    (hconf : env.configLoadConfig w = ((conf, none), w1))
    (hlist : env.pluginsList conf false false w1 = ((ps, none), w2)) :
    (pluginUpdateCommand env cCtx pluginName ref ⟨w, []⟩).2.trace =
        [Event.loadConfig conf none, Event.list conf false false ps none] ++
          (List.zipWith (updateStep conf) ps (updateOutcomes env conf ps w2)).flatten ∧
      (updateOutcomes env conf ps w2).length = ps.length ∧
      updateCalls (pluginUpdateCommand env cCtx pluginName ref ⟨w, []⟩).2.trace =
        ps.map (fun plugin => (conf, plugin.Name, "")) ∧
      printedTexts (pluginUpdateCommand env cCtx pluginName ref ⟨w, []⟩).2.trace =
        List.zipWith (fun plugin outcome => reportLine plugin.Name outcome ++ "\n") ps
          (updateOutcomes env conf ps w2) := by
  have hlen := updateOutcomes_length env conf ps w2
  have htr := updateLoop_trace env conf ps
    ⟨w2, [Event.loadConfig conf none, Event.list conf false false ps none]⟩
  have key : (pluginUpdateCommand env cCtx pluginName ref ⟨w, []⟩).2.trace =
      [Event.loadConfig conf none, Event.list conf false false ps none] ++
        (List.zipWith (updateStep conf) ps (updateOutcomes env conf ps w2)).flatten := by
    rw [← htr]
    simp [pluginUpdateCommand, hall, callLoadConfig, callList, hconf, hlist, Proc.emit]
  refine ⟨key, hlen, ?_, ?_⟩
  · rw [key, updateCalls_append, updateCalls_steps conf ps _ hlen]
    simp [updateCalls]
  · rw [key, printedTexts_append, printedTexts_steps conf ps _ hlen]
    simp [printedTexts]

/-- Witness for C1: the sample world, where the second of three updates
fails; the first and the third are still reported as updated. -/
theorem pluginUpdateCommand_all_each_plugin_witness :
    printedTexts
        (pluginUpdateCommand sampleEnv (flagsSet ["all"]) "ignored" "v9" ⟨0, []⟩).2.trace =
      ["updated lua to ref f00d\n", "failed to update nodejs due to error: fetch failed\n",
        "updated ruby to ref f00d\n"] :=
  (pluginUpdateCommand_all_each_plugin sampleEnv (flagsSet ["all"]) "ignored" "v9" 0 1 2
    sampleConf samplePlugins (by decide) rfl rfl).2.2.2.trans (by decide)

/-- C2: with `--all` set the command has no aggregate status. When the
configuration loads and `plugins.List` succeeds it returns nil, whatever the
individual updates do; when one of the two fails it returns that very error
and `plugins.Update` is never called; a non-nil result therefore only comes
from one of these two failures, and the process is never terminated. -/
theorem pluginUpdateCommand_all_status (env : Env W) (cCtx : cli.Context)
    (pluginName ref : String) (w : W) (hall : cCtx.Bool "all" = true) :
    (env.configLoadConfig w).1.2 = none ∧
        (env.pluginsList (env.configLoadConfig w).1.1 false false
          (env.configLoadConfig w).2).1.2 = none ∧
        (pluginUpdateCommand env cCtx pluginName ref ⟨w, []⟩).1 = Result.returned none ∨
      (∃ err, (env.configLoadConfig w).1.2 = some err ∧
        (pluginUpdateCommand env cCtx pluginName ref ⟨w, []⟩).1 =
          Result.returned (some (GoError.pkg err)) ∧
        updateCalls (pluginUpdateCommand env cCtx pluginName ref ⟨w, []⟩).2.trace = []) ∨
      (∃ err, (env.configLoadConfig w).1.2 = none ∧
        (env.pluginsList (env.configLoadConfig w).1.1 false false
          (env.configLoadConfig w).2).1.2 = some err ∧
        (pluginUpdateCommand env cCtx pluginName ref ⟨w, []⟩).1 =
          Result.returned (some (GoError.pkg err)) ∧
        updateCalls (pluginUpdateCommand env cCtx pluginName ref ⟨w, []⟩).2.trace = []) := by
  cases hc : (env.configLoadConfig w).1.2 with
  | some err =>
    refine Or.inr (Or.inl ⟨err, rfl, ?_, ?_⟩) <;>
      simp [pluginUpdateCommand, hall, callLoadConfig, hc, loggerPrintf, Proc.emit, updateCalls]
  | none =>
    cases hl : (env.pluginsList (env.configLoadConfig w).1.1 false false
        (env.configLoadConfig w).2).1.2 with
    | some err =>
      refine Or.inr (Or.inr ⟨err, rfl, rfl, ?_, ?_⟩) <;>
        simp [pluginUpdateCommand, hall, callLoadConfig, callList, hc, hl, loggerPrintf,
          Proc.emit, updateCalls]
    | none =>
      refine Or.inl ⟨rfl, rfl, ?_⟩
      simp [pluginUpdateCommand, hall, callLoadConfig, callList, hc, hl, Proc.emit]

/-- Witness for C2: the sample world with `--all`. -/
theorem pluginUpdateCommand_all_status_witness :
    (sampleEnv.configLoadConfig 0).1.2 = none ∧
        (sampleEnv.pluginsList (sampleEnv.configLoadConfig 0).1.1 false false
          (sampleEnv.configLoadConfig 0).2).1.2 = none ∧
        (pluginUpdateCommand sampleEnv (flagsSet ["all"]) "" "" ⟨0, []⟩).1 =
          Result.returned none ∨
      (∃ err, (sampleEnv.configLoadConfig 0).1.2 = some err ∧
        (pluginUpdateCommand sampleEnv (flagsSet ["all"]) "" "" ⟨0, []⟩).1 =
          Result.returned (some (GoError.pkg err)) ∧
        updateCalls (pluginUpdateCommand sampleEnv (flagsSet ["all"]) "" "" ⟨0, []⟩).2.trace
          = []) ∨
      (∃ err, (sampleEnv.configLoadConfig 0).1.2 = none ∧
        (sampleEnv.pluginsList (sampleEnv.configLoadConfig 0).1.1 false false
          (sampleEnv.configLoadConfig 0).2).1.2 = some err ∧
        (pluginUpdateCommand sampleEnv (flagsSet ["all"]) "" "" ⟨0, []⟩).1 =
          Result.returned (some (GoError.pkg err)) ∧
        updateCalls (pluginUpdateCommand sampleEnv (flagsSet ["all"]) "" "" ⟨0, []⟩).2.trace
          = []) :=
  pluginUpdateCommand_all_status sampleEnv (flagsSet ["all"]) "" "" 0 (by decide)

/-- C8: without `--all`, for a non-empty name and a configuration that loads,
the command calls `plugins.Update(conf, pluginName, ref)` exactly once, writes
exactly one report line built from what the call returned, and returns the
error of that call unchanged: nil exactly when the update succeeded. -/
theorem pluginUpdateCommand_single (env : Env W) (cCtx : cli.Context)
    (pluginName ref : String) (w w1 : W) (conf : Config)
    (hall : cCtx.Bool "all" = false) (hname : pluginName ≠ "")
    (hconf : env.configLoadConfig w = ((conf, none), w1)) :
    (pluginUpdateCommand env cCtx pluginName ref ⟨w, []⟩).2.trace =
        [Event.loadConfig conf none,
          Event.update conf pluginName ref (env.pluginsUpdate conf pluginName ref w1).1.1
            (env.pluginsUpdate conf pluginName ref w1).1.2,
          Event.printed
            (reportLine pluginName (env.pluginsUpdate conf pluginName ref w1).1 ++ "\n")] ∧
      (pluginUpdateCommand env cCtx pluginName ref ⟨w, []⟩).1 =
        Result.returned ((env.pluginsUpdate conf pluginName ref w1).1.2.map GoError.pkg) ∧
      ((pluginUpdateCommand env cCtx pluginName ref ⟨w, []⟩).1 = Result.returned none ↔
        (env.pluginsUpdate conf pluginName ref w1).1.2 = none) := by
  have hres : (pluginUpdateCommand env cCtx pluginName ref ⟨w, []⟩).1 =
      Result.returned ((env.pluginsUpdate conf pluginName ref w1).1.2.map GoError.pkg) := by
    simp [pluginUpdateCommand, hall, hname, callLoadConfig, callUpdate, hconf, Proc.emit]
  refine ⟨?_, hres, ?_⟩
  · unfold reportLine
    cases hu : (env.pluginsUpdate conf pluginName ref w1).1.2 <;>
      simp [pluginUpdateCommand, hall, hname, callLoadConfig, callUpdate, hconf, Proc.emit,
        formatUpdateResult, loggerPrintf, loggerOutput_newline, hu]
  · rw [hres]
    cases (env.pluginsUpdate conf pluginName ref w1).1.2 <;> simp

/-- Witness for C8: updating `nodejs` to `v9` in the sample world. -/
theorem pluginUpdateCommand_single_witness :
    (pluginUpdateCommand sampleEnv (flagsSet []) "nodejs" "v9" ⟨0, []⟩).2.trace =
        [Event.loadConfig sampleConf none,
          Event.update sampleConf "nodejs" "v9"
            (sampleEnv.pluginsUpdate sampleConf "nodejs" "v9" 1).1.1
            (sampleEnv.pluginsUpdate sampleConf "nodejs" "v9" 1).1.2,
          Event.printed
            (reportLine "nodejs" (sampleEnv.pluginsUpdate sampleConf "nodejs" "v9" 1).1
              ++ "\n")] ∧
      (pluginUpdateCommand sampleEnv (flagsSet []) "nodejs" "v9" ⟨0, []⟩).1 =
        Result.returned ((sampleEnv.pluginsUpdate sampleConf "nodejs" "v9" 1).1.2.map
          GoError.pkg) ∧
      ((pluginUpdateCommand sampleEnv (flagsSet []) "nodejs" "v9" ⟨0, []⟩).1 =
          Result.returned none ↔
        (sampleEnv.pluginsUpdate sampleConf "nodejs" "v9" 1).1.2 = none) :=
  pluginUpdateCommand_single sampleEnv (flagsSet []) "nodejs" "v9" 0 1 sampleConf
    (by decide) (by decide) rfl

/-- C9: the command returns the usage exit error (code 1) exactly when
`--all` is not set and the name is empty; then nothing was called (the trace
and the world are untouched); on every other input the first thing it does is
load the configuration. -/
theorem pluginUpdateCommand_usage (env : Env W) (cCtx : cli.Context)
    (pluginName ref : String) (w : W) :
    ((pluginUpdateCommand env cCtx pluginName ref ⟨w, []⟩).1 =
        Result.returned
          (some (cli.Exit "usage: asdf plugin-update \x7b<name> [git-ref] | --all\x7d" 1)) ↔
      (cCtx.Bool "all" = false ∧ pluginName = "")) ∧
    ((cCtx.Bool "all" = false ∧ pluginName = "") →
      (pluginUpdateCommand env cCtx pluginName ref ⟨w, []⟩).2.trace = [] ∧
      (pluginUpdateCommand env cCtx pluginName ref ⟨w, []⟩).2.world = w) ∧
    (¬ (cCtx.Bool "all" = false ∧ pluginName = "") →
      ∃ rest, (pluginUpdateCommand env cCtx pluginName ref ⟨w, []⟩).2.trace =
        Event.loadConfig (env.configLoadConfig w).1.1 (env.configLoadConfig w).1.2 :: rest) := by
  by_cases hcond : cCtx.Bool "all" = false ∧ pluginName = ""
  · obtain ⟨hall, hname⟩ := hcond
    simp [pluginUpdateCommand, hall, hname]
  · have hguard : (!cCtx.Bool "all" && decide (pluginName = "")) = false := by
      cases hb : cCtx.Bool "all" <;> simp_all
    refine ⟨⟨?_, fun h => absurd h hcond⟩, fun h => absurd h hcond, fun _ => ?_⟩
    · intro h
      exfalso
      revert h
      unfold pluginUpdateCommand
      simp only [hguard, Bool.false_eq_true, if_false]
      cases hc : (callLoadConfig env ⟨w, []⟩).1.2 with
      | some err => simp [hc, cli.Exit]
      | none =>
        cases hb : cCtx.Bool "all" with
        | true =>
          cases hl : (callList env (callLoadConfig env ⟨w, []⟩).1.1 false false
              (callLoadConfig env ⟨w, []⟩).2).1.2 <;> simp [hc, hb, hl, cli.Exit]
        | false =>
          cases hu : (callUpdate env (callLoadConfig env ⟨w, []⟩).1.1 pluginName ref
              (callLoadConfig env ⟨w, []⟩).2).1.2 <;> simp [hc, hb, hu, cli.Exit]
    · obtain ⟨rest, hrest⟩ := pluginUpdateCommand_starts env cCtx pluginName ref ⟨w, []⟩ hguard
      exact ⟨rest, by rw [hrest]; simp [callLoadConfig, Proc.emit]⟩

/-! ## The add command -/

/-- C3: for a non-empty name the command calls `plugins.Add` exactly once,
with its own arguments, and then terminates the process. The exit status is 0
exactly when `Add` returned nil or an error that is a
`plugins.PluginAlreadyExists`, bare or wrapped, and 1 for every other error:
a bare or a wrapped `PluginAlreadyExists` exits with 0, any other plain error
with 1. When `Add` returned an error, its text is written by the logger
(followed by a newline unless it ends with one) after the call and before
the exit. -/
theorem pluginAddCommand_exit_status (env : Env W) (conf : Config)
    (pluginName pluginRepo : String) (w : W) (hname : pluginName ≠ "") :
    addCalls (pluginAddCommand env conf pluginName pluginRepo ⟨w, []⟩).2.trace =
        [(conf, pluginName, pluginRepo)] ∧
      ((pluginAddCommand env conf pluginName pluginRepo ⟨w, []⟩).1 = Result.exited 0 ↔
        ((env.pluginsAdd conf pluginName pluginRepo w).1 = none ∨
          ∃ err, (env.pluginsAdd conf pluginName pluginRepo w).1 = some err ∧
            AlreadyExistsInChain err)) ∧
      ((pluginAddCommand env conf pluginName pluginRepo ⟨w, []⟩).1 = Result.exited 1 ↔
        ∃ err, (env.pluginsAdd conf pluginName pluginRepo w).1 = some err ∧
          ¬ AlreadyExistsInChain err) ∧
      (∀ msg, (env.pluginsAdd conf pluginName pluginRepo w).1 =
          some (PkgError.pluginAlreadyExists msg) →
        (pluginAddCommand env conf pluginName pluginRepo ⟨w, []⟩).1 = Result.exited 0) ∧
      (∀ msg1 msg2, (env.pluginsAdd conf pluginName pluginRepo w).1 =
          some (PkgError.wrapping msg1 (PkgError.pluginAlreadyExists msg2)) →
        (pluginAddCommand env conf pluginName pluginRepo ⟨w, []⟩).1 = Result.exited 0) ∧
      (∀ msg, (env.pluginsAdd conf pluginName pluginRepo w).1 = some (PkgError.other msg) →
        (pluginAddCommand env conf pluginName pluginRepo ⟨w, []⟩).1 = Result.exited 1) ∧
      ((env.pluginsAdd conf pluginName pluginRepo w).1 = none →
        (pluginAddCommand env conf pluginName pluginRepo ⟨w, []⟩).2.trace =
          [Event.add conf pluginName pluginRepo none, Event.osExit 0]) ∧
      (∀ err, (env.pluginsAdd conf pluginName pluginRepo w).1 = some err →
        ∃ code, (pluginAddCommand env conf pluginName pluginRepo ⟨w, []⟩).1 =
            Result.exited code ∧
          (pluginAddCommand env conf pluginName pluginRepo ⟨w, []⟩).2.trace =
            [Event.add conf pluginName pluginRepo (some err),
              Event.printed
                (if err.Error.data.getLast? = some '\n' then err.Error
                  else err.Error ++ "\n"),
              Event.osExit code]) := by
  have hrun : ∀ err, (env.pluginsAdd conf pluginName pluginRepo w).1 = some err →
      pluginAddCommand env conf pluginName pluginRepo ⟨w, []⟩ =
        (Result.exited (if errors.As err = true then 0 else 1),
          ⟨(env.pluginsAdd conf pluginName pluginRepo w).2,
            [Event.add conf pluginName pluginRepo (some err),
              Event.printed
                (if err.Error.data.getLast? = some '\n' then err.Error
                  else err.Error ++ "\n"),
              Event.osExit (if errors.As err = true then 0 else 1)]⟩) := by
    intro err ha
    cases he : errors.As err <;>
      simp [pluginAddCommand, hname, callAdd, ha, he, osExit, Proc.emit, loggerPrintf,
        loggerOutput_eq]
  refine ⟨pluginAddCommand_calls_add env conf pluginName pluginRepo w hname,
    ?_, ?_, ?_, ?_, ?_, ?_, ?_⟩
  · cases ha : (env.pluginsAdd conf pluginName pluginRepo w).1 with
    | none => simp [pluginAddCommand, hname, callAdd, ha, osExit]
    | some err =>
      rw [hrun err ha]
      cases he : errors.As err
      · have : ¬ AlreadyExistsInChain err := fun h => by
          rw [(errorsAs_iff err).2 h] at he; exact absurd he (by simp)
        simp [this]
      · simp [(errorsAs_iff err).1 he]
  · cases ha : (env.pluginsAdd conf pluginName pluginRepo w).1 with
    | none => simp [pluginAddCommand, hname, callAdd, ha, osExit]
    | some err =>
      rw [hrun err ha]
      cases he : errors.As err
      · have : ¬ AlreadyExistsInChain err := fun h => by
          rw [(errorsAs_iff err).2 h] at he; exact absurd he (by simp)
        simp [this]
      · simp [(errorsAs_iff err).1 he]
  · intro msg ha
    rw [hrun _ ha]
    simp [errors.As]
  · intro msg1 msg2 ha
    rw [hrun _ ha]
    simp [errors.As]
  · intro msg ha
    rw [hrun _ ha]
    simp [errors.As]
  · intro ha
    simp [pluginAddCommand, hname, callAdd, ha, osExit, Proc.emit]
  · intro err ha
    exact ⟨_, by rw [hrun err ha], by rw [hrun err ha]⟩

/-- Witness for C3: in the sample world adding `lua`, which is already
there, logs the wrapped `PluginAlreadyExists` error and exits with 0, and
adding `broken`, which fails to clone, exits with 1. -/
theorem pluginAddCommand_exit_status_witness :
    (pluginAddCommand sampleEnv sampleConf "lua" "" ⟨0, []⟩).1 = Result.exited 0 ∧
      (pluginAddCommand sampleEnv sampleConf "lua" "" ⟨0, []⟩).2.trace =
        [Event.add sampleConf "lua" ""
            (some (PkgError.wrapping "add failed: plugin named lua already added"
              (PkgError.pluginAlreadyExists "plugin named lua already added"))),
          Event.printed "add failed: plugin named lua already added\n",
          Event.osExit 0] ∧
      (pluginAddCommand sampleEnv sampleConf "broken" "" ⟨0, []⟩).1 = Result.exited 1 :=
  ⟨(pluginAddCommand_exit_status sampleEnv sampleConf "lua" "" 0 (by decide)).2.2.2.2.1
      "add failed: plugin named lua already added" "plugin named lua already added" rfl,
    by decide,
    (pluginAddCommand_exit_status sampleEnv sampleConf "broken" "" 0 (by decide)).2.2.2.2.2.1
      "unable to clone plugin" rfl⟩

/-- C7: with an empty name the command returns the usage exit error with
code 1 and does nothing else: no call of `plugins.Add`, no `os.Exit`, the
world untouched. Conversely every `plugins.Add` call the command makes, for
any arguments, carries a non-empty name. -/
theorem pluginAddCommand_empty_name (env : Env W) (conf : Config) (pluginRepo : String)
    (w : W) :
    pluginAddCommand env conf "" pluginRepo ⟨w, []⟩ =
        (Result.returned (some (GoError.exitError "usage: asdf plugin add <name> [<git-url>]" 1)),
          ⟨w, []⟩) ∧
      (∀ (pluginName : String) (c : Config) (name repo : String),
        (c, name, repo) ∈ addCalls (pluginAddCommand env conf pluginName pluginRepo ⟨w, []⟩).2.trace →
          name ≠ "") := by
  refine ⟨by simp [pluginAddCommand, cli.Exit], ?_⟩
  intro pluginName c name repo hmem
  by_cases hname : pluginName = ""
  · subst hname
    simp [pluginAddCommand, addCalls] at hmem
  · have h := (pluginAddCommand_calls_add env conf pluginName pluginRepo w hname)
    rw [h] at hmem
    simp at hmem
    rw [hmem.2.1]
    exact hname

/-! ## The list command -/

/-- C10: when the configuration loads and `plugins.List`, called with the two
flag values, returns `ps`, the command returns nil and writes exactly one
line per plugin, in the order of `ps`: the name alone, the name and the URL,
the name and the ref, or the name, the URL and the ref, according to the
flags. `plugins.List` is called once, with exactly the two flag values. -/
theorem pluginListCommand_renders (env : Env W) (cCtx : cli.Context) (w w1 w2 : W)
    (conf : Config) (ps : List Plugin)
    (hconf : env.configLoadConfig w = ((conf, none), w1))
    (hlist : env.pluginsList conf (cCtx.Bool "urls") (cCtx.Bool "refs") w1 = ((ps, none), w2)) :
    (pluginListCommand env cCtx ⟨w, []⟩).1 = Result.returned none ∧
      (pluginListCommand env cCtx ⟨w, []⟩).2.trace =
        [Event.loadConfig conf none,
          Event.list conf (cCtx.Bool "urls") (cCtx.Bool "refs") ps none] ++
          ps.map (fun plugin =>
            Event.printed (listLine (cCtx.Bool "urls") (cCtx.Bool "refs") plugin ++ "\n")) ∧
      printedTexts (pluginListCommand env cCtx ⟨w, []⟩).2.trace =
        ps.map (fun plugin => listLine (cCtx.Bool "urls") (cCtx.Bool "refs") plugin ++ "\n") ∧
      (printedTexts (pluginListCommand env cCtx ⟨w, []⟩).2.trace).length = ps.length ∧
      listCalls (pluginListCommand env cCtx ⟨w, []⟩).2.trace =
        [(conf, cCtx.Bool "urls", cCtx.Bool "refs")] := by
  have key : (pluginListCommand env cCtx ⟨w, []⟩).2.trace =
      [Event.loadConfig conf none,
        Event.list conf (cCtx.Bool "urls") (cCtx.Bool "refs") ps none] ++
        ps.map (fun plugin =>
          Event.printed (listLine (cCtx.Bool "urls") (cCtx.Bool "refs") plugin ++ "\n")) := by
    simp [pluginListCommand, callLoadConfig, callList, hconf, hlist, Proc.emit,
      printLoop_trace]
  have hp : printedTexts (pluginListCommand env cCtx ⟨w, []⟩).2.trace =
      ps.map (fun plugin =>
        listLine (cCtx.Bool "urls") (cCtx.Bool "refs") plugin ++ "\n") := by
    rw [key, printedTexts_append, printedTexts_map_printed]
    simp [printedTexts]
  refine ⟨?_, key, hp, ?_, ?_⟩
  · simp [pluginListCommand, callLoadConfig, callList, hconf, hlist, Proc.emit]
  · rw [hp, List.length_map]
  · rw [key, listCalls_append, listCalls_map_printed]
    simp [listCalls]

/-- Witness for C10: the sample world, listed with `--urls`. -/
theorem pluginListCommand_renders_witness :
    (pluginListCommand sampleEnv (flagsSet ["urls"]) ⟨0, []⟩).1 = Result.returned none ∧
      (pluginListCommand sampleEnv (flagsSet ["urls"]) ⟨0, []⟩).2.trace =
        [Event.loadConfig sampleConf none,
          Event.list sampleConf ((flagsSet ["urls"]).Bool "urls")
            ((flagsSet ["urls"]).Bool "refs") samplePlugins none] ++
          samplePlugins.map (fun plugin =>
            Event.printed (listLine ((flagsSet ["urls"]).Bool "urls")
              ((flagsSet ["urls"]).Bool "refs") plugin ++ "\n")) ∧
      printedTexts (pluginListCommand sampleEnv (flagsSet ["urls"]) ⟨0, []⟩).2.trace =
        samplePlugins.map (fun plugin =>
          listLine ((flagsSet ["urls"]).Bool "urls") ((flagsSet ["urls"]).Bool "refs") plugin
            ++ "\n") ∧
      (printedTexts (pluginListCommand sampleEnv (flagsSet ["urls"]) ⟨0, []⟩).2.trace).length =
        samplePlugins.length ∧
      listCalls (pluginListCommand sampleEnv (flagsSet ["urls"]) ⟨0, []⟩).2.trace =
        [(sampleConf, (flagsSet ["urls"]).Bool "urls", (flagsSet ["urls"]).Bool "refs")] :=
  pluginListCommand_renders sampleEnv (flagsSet ["urls"]) 0 1 2 sampleConf samplePlugins rfl rfl

/-! ## The `installs` package -/

/-- C6: the install path is the literal text `DataDir/installs/Name/version`
for every configuration, plugin and version (the function is total, so it
never fails); data directory `/x`, plugin `lua` and version `1.0.0` give
`/x/installs/lua/1.0.0`; equal inputs give equal paths. -/
theorem InstallPath_literal (conf : Config) (plugin : Plugin) (version : String) :
    InstallPath conf plugin version =
        conf.DataDir ++ "/installs/" ++ plugin.Name ++ "/" ++ version ∧
      InstallPath ⟨"/x"⟩ ⟨"lua", plugin.URL, plugin.Ref⟩ "1.0.0" = "/x/installs/lua/1.0.0" ∧
      (∀ (conf2 : Config) (plugin2 : Plugin) (version2 : String),
        conf2.DataDir = conf.DataDir → plugin2.Name = plugin.Name → version2 = version →
          InstallPath conf2 plugin2 version2 = InstallPath conf plugin version) := by
  refine ⟨rfl, by simp [InstallPath], ?_⟩
  intro conf2 plugin2 version2 h1 h2 h3
  simp [InstallPath, h1, h2, h3]

/-- C4: `IsInstalled` is true exactly when `os.Stat` of the install path
finds a directory, every component of the path being resolved in turn. For a
version that is a single path segment this is the case exactly when the
installs directory of the plugin has a subdirectory of that name. It is true
once the directory has been created, whatever else is put into the
filesystem afterwards; in the scenario of the test, after version `1.0.0`
was installed, `1.0.0` is installed, `4.0.0` is not, and neither is
`nope/../1.0.0`, whose path runs through a directory that does not exist. -/
theorem IsInstalled_iff_directory (fs : FS) (conf : Config) (plugin : Plugin)
    (version : String) :
    (IsInstalled fs conf plugin version = true ↔
        osStat fs (InstallPath conf plugin version) = some Kind.dir) ∧
      (∀ base, plainSegment version →
        walk fs [] (components (conf.DataDir ++ "/installs/" ++ plugin.Name)) =
          some (base, Kind.dir) →
        (IsInstalled fs conf plugin version = true ↔
          kindAt fs (base ++ [version]) = some Kind.dir)) ∧
      (∀ fs1, mockInstall fs conf plugin version = some fs1 →
        ∀ contents, IsInstalled (fs1 ++ contents) conf plugin version = true) ∧
      (∃ fs1, mockInstall [] sampleConf testPlugin "1.0.0" = some fs1 ∧
        IsInstalled fs1 sampleConf testPlugin "1.0.0" = true ∧
        IsInstalled fs1 sampleConf testPlugin "4.0.0" = false ∧
        IsInstalled fs1 sampleConf testPlugin "nope/../1.0.0" = false) := by
  refine ⟨by simp [IsInstalled], ?_, ?_, ?_⟩
  · intro base hplain hw
    have hcomp : components (InstallPath conf plugin version) =
        components (conf.DataDir ++ "/installs/" ++ plugin.Name) ++ [version] :=
      components_append_plain _ version hplain
    have hstat : osStat fs (InstallPath conf plugin version) =
        kindAt fs (base ++ [version]) := by
      unfold osStat
      simp only [InstallPath_ne_empty, if_false]
      rw [hcomp, walk_append fs _ _ _ _ hw]
      exact walk_plain fs base version ⟨hplain.1, hplain.2.1, hplain.2.2.1⟩
    simp [IsInstalled, hstat]
  · intro fs1 h contents
    have hk := osMkdirAll_stat fs fs1 _ h
    simp [IsInstalled, osStat_mono fs1 contents _ _ hk]
  · exact ⟨[(["x"], Kind.dir), (["x", "installs"], Kind.dir),
      (["x", "installs", "lua"], Kind.dir), (["x", "installs", "lua", "1.0.0"], Kind.dir)],
      by decide, by decide, by decide, by decide⟩

/-- C5, as stated, fails. Creating the install directory of version `a/b`
in an empty filesystem makes `Installed` return `a`, not `a/b`. With the data
directory `/x/installs/lua/junk/../../..`, creating the install directory of
version `1.0.0` in an empty filesystem also creates `junk` in the installs
directory, and `Installed` returns `1.0.0` and `junk`. -/
theorem Installed_counterexample :
    ((mockInstall [] sampleConf testPlugin "a/b").map
          (fun fs1 => Installed fs1 sampleConf testPlugin) = some (["a"], none) ∧
        (["a"], (none : Option PkgError)) ≠ (["a/b"], none)) ∧
      (plainSegment "1.0.0" ∧
        (mockInstall [] dotDotConf testPlugin "1.0.0").map
          (fun fs1 => Installed fs1 dotDotConf testPlugin) = some (["1.0.0", "junk"], none) ∧
        (["1.0.0", "junk"], (none : Option PkgError)) ≠ (["1.0.0"], none)) := by
  refine ⟨⟨by decide, by decide⟩, by decide, by decide, by decide⟩

/-- C5, amended: `Installed` returns no error. When the installs path of the
plugin resolves to a directory, the result holds exactly the names of its
immediate subdirectories, each once; when it does not, the result is empty
with a nil error. After the install directory of a version that is a single
path segment has been created in an otherwise empty installs directory whose
path has no `..` component, the result is that version alone. -/
theorem Installed_lists_subdirectories (fs : FS) (conf : Config) (plugin : Plugin) :
    (Installed fs conf plugin).2 = none ∧
      (∀ base,
        walk fs [] (components (conf.DataDir ++ "/installs/" ++ plugin.Name)) =
          some (base, Kind.dir) →
        ∀ name, name ∈ (Installed fs conf plugin).1 ↔
          kindAt fs (base ++ [name]) = some Kind.dir) ∧
      (Installed fs conf plugin).1.Nodup ∧
      (osStat fs (conf.DataDir ++ "/installs/" ++ plugin.Name) ≠ some Kind.dir →
        Installed fs conf plugin = ([], none)) ∧
      (∀ version fs1, plainSegment version →
        ".." ∉ components (conf.DataDir ++ "/installs/" ++ plugin.Name) →
        entriesUnder fs
          (namesOf (components (conf.DataDir ++ "/installs/" ++ plugin.Name))) = [] →
        mockInstall fs conf plugin version = some fs1 →
        Installed fs1 conf plugin = ([version], none)) := by
  have hcases : (∃ base,
      walk fs [] (components (conf.DataDir ++ "/installs/" ++ plugin.Name)) =
        some (base, Kind.dir)) ∨
      osStat fs (conf.DataDir ++ "/installs/" ++ plugin.Name) ≠ some Kind.dir := by
    unfold osStat
    simp only [installsDir_ne_empty, if_false]
    cases hw : walk fs [] (components (conf.DataDir ++ "/installs/" ++ plugin.Name)) with
    | none => right; simp
    | some r =>
      obtain ⟨base, k⟩ := r
      cases k with
      | file => right; simp
      | dir => left; exact ⟨base, rfl⟩
  refine ⟨?_, ?_, ?_, Installed_of_not_dir fs conf plugin, ?_⟩
  · rcases hcases with ⟨base, hw⟩ | hn
    · rw [Installed_of_dir fs conf plugin base hw]
    · rw [Installed_of_not_dir fs conf plugin hn]
  · intro base hw name
    rw [Installed_of_dir fs conf plugin base hw]
    exact mem_subdirs fs base name
  · rcases hcases with ⟨base, hw⟩ | hn
    · rw [Installed_of_dir fs conf plugin base hw]
      exact (entryNames_nodup fs base).filter _
    · rw [Installed_of_not_dir fs conf plugin hn]
      exact List.nodup_nil
  · intro version fs1 hplain hdd hempty hmk
    have hcomp : components (InstallPath conf plugin version) =
        components (conf.DataDir ++ "/installs/" ++ plugin.Name) ++ [version] :=
      components_append_plain _ version hplain
    have hnames : namesOf (components (InstallPath conf plugin version)) =
        namesOf (components (conf.DataDir ++ "/installs/" ++ plugin.Name)) ++ [version] := by
      rw [hcomp, namesOf_append]
      simp [namesOf, hplain.1, hplain.2.1]
    have hddp : ".." ∉ components (InstallPath conf plugin version) := by
      rw [hcomp]
      intro hmem
      rw [List.mem_append] at hmem
      rcases hmem with hmem | hmem
      · exact hdd hmem
      · simp at hmem
        exact hplain.2.2.1 hmem.symm
    have hstat := osMkdirAll_stat fs fs1 _ hmk
    unfold osStat at hstat
    simp only [InstallPath_ne_empty, if_false] at hstat
    cases hw : walk fs1 [] (components (InstallPath conf plugin version)) with
    | none => simp [hw] at hstat
    | some r =>
      obtain ⟨loc, k⟩ := r
      simp [hw] at hstat
      subst hstat
      rw [hcomp] at hw
      obtain ⟨base, hbase, hdir, -⟩ := walk_snoc fs1 _ [] version loc Kind.dir
        ⟨hplain.1, hplain.2.1, hplain.2.2.1⟩ hw
      have hb := walk_names fs1 _ [] base Kind.dir hdd hbase
      simp only [List.nil_append] at hb
      obtain ⟨added, hfs1, hadded⟩ := mkdirChain_added
        (namesOf (components (InstallPath conf plugin version))) _ fs fs1
        (chain_names _ hddp) hmk
      rw [Installed_of_dir fs1 conf plugin base hbase]
      congr 1
      apply eq_singleton_of_nodup _ _ ((entryNames_nodup fs1 base).filter _)
      intro name
      rw [mem_subdirs]
      constructor
      · intro hname
        rw [hfs1] at hname
        rcases kindAt_append_cases fs added _ _ hname with h1 | ⟨e, he, hep⟩
        · rw [hb, kindAt_none_of_entriesUnder fs _ name hempty] at h1
          exact absurd h1 (by simp)
        · have hpre := hadded e he
          rw [hep, hnames, hb] at hpre
          have := hpre.eq_of_length (by simp)
          simpa using this
      · intro hname
        rw [hname]; exact hdir

/-- Witness for C5: the scenario of the test, version `1.0.0` of `lua`
installed into an empty data directory. -/
theorem Installed_lists_subdirectories_witness :
    ∃ fs1, mockInstall [] sampleConf testPlugin "1.0.0" = some fs1 ∧
      Installed fs1 sampleConf testPlugin = (["1.0.0"], none) ∧
      Installed [] sampleConf testPlugin = ([], none) :=
  ⟨[(["x"], Kind.dir), (["x", "installs"], Kind.dir),
      (["x", "installs", "lua"], Kind.dir), (["x", "installs", "lua", "1.0.0"], Kind.dir)],
    by decide,
    (Installed_lists_subdirectories [] sampleConf testPlugin).2.2.2.2 "1.0.0" _
      (by decide) (by decide) (by decide) (by decide),
    (Installed_lists_subdirectories [] sampleConf testPlugin).2.2.2.1 (by decide)⟩

end Asdf
